import Mathlib

/-!
Shallow embedding of the INA226 battery monitor
(`src/lib/ina226_battery_monitor/src/ina226_battery_monitor.cpp`).

Modelling conventions:
* C `float` / `double` values are modelled as `ℚ` (exact rational arithmetic).
* `uint32_t` timestamps are modelled as `Nat`; the wrap-safe unsigned
  subtraction `now_ms - last_ms` of the C code is `wsub`, explicit mod `2^32`.
* NVS blobs are `List Nat` of bytes; the packed `PersistedBatteryState`
  struct is encoded/decoded field by field in little-endian byte order,
  matching the packed little-endian layout on the target.
* The `NAN` sentinel in `last_saved_remaining_capacity_mah_` is `Option ℚ`
  (`none` models the unset/NaN state).
* Storage success/failure of a `putBytes` call is an explicit parameter
  `nvs_write_ok`; sensor readings are explicit inputs.
-/

namespace Ina226

/-- SocPoint from the header: one (voltage, percent) breakpoint. -/
structure SocPoint where
  voltage_v : ℚ
  soc_percent : ℚ
  deriving DecidableEq, Repr

/-- k_default_soc_table_: the built-in 11-point SOC table. -/
def k_default_soc_table : List SocPoint :=
  [⟨12.60, 100⟩, ⟨12.30, 90⟩, ⟨12.00, 80⟩, ⟨11.70, 70⟩, ⟨11.40, 60⟩,
   ⟨11.10, 50⟩, ⟨10.80, 40⟩, ⟨10.50, 30⟩, ⟨10.20, 20⟩, ⟨9.60, 10⟩, ⟨9.00, 0⟩]

/-- Table selection at the top of get_soc_from_voltage: the configured table
is used only when non-null (`some`) and of length ≥ 2, else the default. -/
def selectTable (cfgTable : Option (List SocPoint)) : List SocPoint :=
  match cfgTable with
  | none => k_default_soc_table
  | some t => if t.length < 2 then k_default_soc_table else t

/-- Indexing `table[i]` (the C code only ever indexes in bounds; the default
value is never reached for the selected tables, which have length ≥ 2). -/
def getP (t : List SocPoint) (i : Nat) : SocPoint :=
  t.getD i ⟨0, 0⟩

/-- The linear interpolation expression of get_soc_from_voltage:
`low_p + (v - low_v) * (high_p - low_p) / (high_v - low_v)`. -/
def interpOf (hi lo : SocPoint) (v : ℚ) : ℚ :=
  lo.soc_percent +
    (v - lo.voltage_v) * (hi.soc_percent - lo.soc_percent) / (hi.voltage_v - lo.voltage_v)

/-- The scan loop of get_soc_from_voltage over adjacent pairs
(`for i; i + 1 < table_len; i++` with test `v <= high_v && v > low_v`);
`none` models falling off the end of the loop. -/
def interpLoop (v : ℚ) : List SocPoint → Option ℚ
  | hi :: lo :: rest =>
      if v ≤ hi.voltage_v ∧ lo.voltage_v < v then some (interpOf hi lo v)
      else interpLoop v (lo :: rest)
  | _ => none

/-- Body of get_soc_from_voltage after table selection. -/
def socFromTable (t : List SocPoint) (v : ℚ) : ℚ :=
  if (getP t 0).voltage_v ≤ v then (getP t 0).soc_percent
  else if v ≤ (getP t (t.length - 1)).voltage_v then (getP t (t.length - 1)).soc_percent
  else
    match interpLoop v t with
    | some p => p
    | none => (getP t (t.length - 1)).soc_percent

/-- Ina226BatteryMonitor::get_soc_from_voltage. -/
def get_soc_from_voltage (cfgTable : Option (List SocPoint)) (v : ℚ) : ℚ :=
  socFromTable (selectTable cfgTable) v

/-- The configuration fields of Ina226BatteryMonitor::Config that the
battery-state logic reads (sensor/bus fields are external collaborators). -/
structure Config where
  battery_capacity_mah : ℚ
  current_polarity : Int
  current_deadzone_ma : ℚ
  soc_table : Option (List SocPoint)
  nvs_namespace : Option String
  nvs_key_state : Option String
  save_interval_ms : Nat
  min_save_delta_mah : ℚ
  startup_voltage_samples : Nat
  full_charge_voltage_v : ℚ
  full_charge_current_ma : ℚ
  deriving DecidableEq, Repr

/-- Ina226BatteryMonitor::is_nvs_enabled: namespace and key both non-null
and non-empty (`none` models a null pointer). -/
def is_nvs_enabled (cfg : Config) : Bool :=
  (match cfg.nvs_namespace with | some s => s ≠ "" | none => false) &&
  (match cfg.nvs_key_state with | some s => s ≠ "" | none => false)

/-- Mutable runtime state of the monitor. -/
structure MonitorState where
  remaining_capacity_mah : ℚ
  soc_percent : ℚ
  last_time_ms : Nat
  last_nvs_save_ms : Nat
  last_saved_remaining_capacity_mah : Option ℚ
  deriving DecidableEq, Repr

/-- Ina226BatteryMonitor::Sample, as published by update. -/
structure Sample where
  bus_voltage_v : ℚ
  shunt_voltage_mv : ℚ
  current_ma : ℚ
  power_mw : ℚ
  power2_mw : ℚ
  remaining_capacity_mah : ℚ
  soc_percent : ℚ
  deriving DecidableEq, Repr

/-- One set of INA226 readings consumed by an update tick (raw, before the
polarity correction). -/
structure SensorReading where
  bus_voltage_v : ℚ
  shunt_voltage_mv : ℚ
  current_ma : ℚ
  power_mw : ℚ
  deriving DecidableEq, Repr

/-- Wrap-safe unsigned subtraction `a - b` on uint32 timestamps. -/
def wsub (a b : Nat) : Nat :=
  (a + (2 ^ 32 - b % 2 ^ 32)) % 2 ^ 32

/-- The two-sided clamp used throughout the monitor:
`if (x < 0) x = 0; if (x > cap) x = cap;`. -/
def clampCode (x cap : ℚ) : ℚ :=
  let x1 := if x < 0 then 0 else x
  if cap < x1 then cap else x1

/-- static_cast of a nonnegative floating value to uint32_t: truncation
toward zero (= floor on nonnegative inputs), reduced mod `2^32`. -/
def castU32 (q : ℚ) : Nat :=
  (⌊q⌋).toNat % 2 ^ 32

/-- Little-endian read of `count` bytes of `bytes` starting at `offset`. -/
def leNat (bytes : List Nat) (offset count : Nat) : Nat :=
  (List.range count).foldr (fun i acc => bytes.getD (offset + i) 0 + 256 * acc) 0

/-- Little-endian serialization of `n` into `count` bytes. -/
def toLE (n count : Nat) : List Nat :=
  (List.range count).map (fun i => n / 256 ^ i % 256)

/-- One shift-xor round of calc_crc32_le's inner bit loop. -/
def crc32_step (c : Nat) : Nat :=
  (c / 2) ^^^ (if c % 2 = 1 then 0xEDB88320 else 0)

/-- Iterating the bit loop a given number of times. -/
def crc32_bits : Nat → Nat → Nat
  | 0, c => c
  | n + 1, c => crc32_bits n (crc32_step c)

/-- One byte step of calc_crc32_le: xor the byte into the low bits, then run
8 shift-xor rounds. -/
def crc32_byte (c b : Nat) : Nat :=
  crc32_bits 8 (c ^^^ b)

/-- Ina226BatteryMonitor::calc_crc32_le: poly 0xEDB88320, init 0xFFFFFFFF,
reflected, final complement. -/
def calc_crc32_le (data : List Nat) : Nat :=
  0xFFFFFFFF ^^^ data.foldl crc32_byte 0xFFFFFFFF

/-- k_battery_state_magic. -/
def k_battery_state_magic : Nat := 0x42415431

/-- k_battery_state_version. -/
def k_battery_state_version : Nat := 1

/-- Load failure causes of load_remaining_capacity_from_nvs, one per early
return (each has its own log line in the C code). -/
inductive LoadError where
  | notEnabled
  | openFailed
  | sizeMismatch
  | badMagicVersion
  | capacityMismatch
  | crcMismatch
  deriving DecidableEq, Repr

/-- Validation and decoding of a stored PersistedBatteryState blob, as in
load_remaining_capacity_from_nvs once the bytes are in hand: size check
(packed struct size is 20 bytes), magic/version check, capacity check
against `uint32(config capacity + 0.5)`, CRC-32 over the first 16 bytes
(`offsetof(PersistedBatteryState, crc32)`), then `remaining_mah_x100 / 100.0`. -/
def decode_persisted (bytes : List Nat) (expected_capacity_mah : ℚ) : Except LoadError ℚ :=
  if bytes.length ≠ 20 then .error .sizeMismatch
  else
    let magic := leNat bytes 0 4
    let version := leNat bytes 4 2
    let capacity_mah_x1 := leNat bytes 8 4
    let remaining_mah_x100 := leNat bytes 12 4
    let crc32 := leNat bytes 16 4
    if magic ≠ k_battery_state_magic ∨ version ≠ k_battery_state_version then
      .error .badMagicVersion
    else if capacity_mah_x1 ≠ castU32 (expected_capacity_mah + 1/2) then
      .error .capacityMismatch
    else if crc32 ≠ calc_crc32_le (bytes.take 16) then
      .error .crcMismatch
    else
      .ok ((remaining_mah_x100 : ℚ) / 100)

/-- Ina226BatteryMonitor::load_remaining_capacity_from_nvs; `stored` is the
blob under the configured key (`none` models a failed Preferences::begin). -/
def load_remaining_capacity_from_nvs (cfg : Config) (stored : Option (List Nat)) :
    Except LoadError ℚ :=
  if is_nvs_enabled cfg = false then .error .notEnabled
  else
    match stored with
    | none => .error .openFailed
    | some bytes => decode_persisted bytes cfg.battery_capacity_mah

/-- The record bytes written by save_remaining_capacity_to_nvs: clamp the
value to `[0, capacity]`, fill the packed struct, append the CRC over the
preceding 16 bytes. -/
def save_encode (cfg : Config) (remaining_capacity_mah : ℚ) : List Nat :=
  let r := clampCode remaining_capacity_mah cfg.battery_capacity_mah
  let capacity_mah_x1 := castU32 (cfg.battery_capacity_mah + 1/2)
  let remaining_mah_x100 := castU32 (r * 100 + 1/2)
  let body := toLE k_battery_state_magic 4 ++ toLE k_battery_state_version 2 ++
      toLE 0 2 ++ toLE capacity_mah_x1 4 ++ toLE remaining_mah_x100 4
  body ++ toLE (calc_crc32_le body) 4

/-- The skip test of maybe_save_to_nvs's delta check:
`!isnan(last_saved) && fabs(remaining - last_saved) < min_save_delta`. -/
def small_delta (cfg : Config) (st : MonitorState) : Bool :=
  match st.last_saved_remaining_capacity_mah with
  | some prev => decide (|st.remaining_capacity_mah - prev| < cfg.min_save_delta_mah)
  | none => false

/-- Ina226BatteryMonitor::maybe_save_to_nvs. Returns the new state and
`some force` when a storage write was attempted (`none`: no write at all);
`nvs_write_ok` tells whether the putBytes call succeeds. -/
def maybe_save_to_nvs (cfg : Config) (st : MonitorState) (now_ms : Nat) (force : Bool)
    (nvs_write_ok : Bool) : MonitorState × Option Bool :=
  if is_nvs_enabled cfg = false then (st, none)
  else if force = false ∧ wsub now_ms st.last_nvs_save_ms < cfg.save_interval_ms then
    (st, none)
  else if force = false ∧ small_delta cfg st = true then
    ({ st with last_nvs_save_ms := now_ms }, none)
  else if nvs_write_ok = true then
    ({ st with last_saved_remaining_capacity_mah := some st.remaining_capacity_mah,
               last_nvs_save_ms := now_ms }, some force)
  else
    ({ st with last_nvs_save_ms := now_ms }, some force)

/-- Ina226BatteryMonitor::reset_state_from_voltage. -/
def reset_state_from_voltage (cfg : Config) (st : MonitorState) (voltage_v : ℚ) :
    MonitorState :=
  let soc := get_soc_from_voltage cfg.soc_table voltage_v
  { st with soc_percent := soc,
            remaining_capacity_mah := soc / 100 * cfg.battery_capacity_mah }

/-- Serial-command block of update. `clear_nvs_state` (for 'c'/'C') touches
only storage, never the monitor state, so both recognized commands act the
same on the state: reset from the just-read bus voltage, then force-save. -/
def command_step (cfg : Config) (st : MonitorState) (now_ms : Nat) (cmd : Option Char)
    (bus_voltage_v : ℚ) (nvs_write_ok : Bool) : MonitorState × Option Bool :=
  match cmd with
  | none => (st, none)
  | some c =>
      if c = 'c' ∨ c = 'C' ∨ c = 'r' ∨ c = 'R' then
        maybe_save_to_nvs cfg (reset_state_from_voltage cfg st bus_voltage_v) now_ms true
          nvs_write_ok
      else (st, none)

/-- Coulomb-counting block of update: only when `elapsed_ms > 0`. -/
def integrate_step (cfg : Config) (st : MonitorState) (now_ms : Nat)
    (effective_current_ma : ℚ) : MonitorState :=
  let elapsed_ms := wsub now_ms st.last_time_ms
  if 0 < elapsed_ms then
    let hours_passed : ℚ := (elapsed_ms : ℚ) / 3600000
    let mah_delta := effective_current_ma * hours_passed
    let rem := clampCode (st.remaining_capacity_mah - mah_delta) cfg.battery_capacity_mah
    { st with remaining_capacity_mah := rem,
              soc_percent := rem / cfg.battery_capacity_mah * 100,
              last_time_ms := now_ms }
  else st

/-- Full-charge detection block of update. -/
def full_charge_step (cfg : Config) (st : MonitorState) (now_ms : Nat)
    (bus_voltage_v abs_current_ma : ℚ) (nvs_write_ok : Bool) : MonitorState × Option Bool :=
  if cfg.full_charge_voltage_v < bus_voltage_v ∧ abs_current_ma < cfg.full_charge_current_ma then
    maybe_save_to_nvs cfg
      { st with remaining_capacity_mah := cfg.battery_capacity_mah, soc_percent := 100 }
      now_ms true nvs_write_ok
  else (st, none)

/-- Result of one update tick: new state, published sample, and the force
flags of the storage write attempts made during the tick, in order. -/
structure UpdateResult where
  state : MonitorState
  sample : Sample
  writes : List Bool
  deriving DecidableEq, Repr

/-- Ina226BatteryMonitor::update(now_ms, serial): read sensors, handle an
optional command byte, integrate, detect full charge, run the throttled
save, publish the sample. -/
def update (cfg : Config) (st : MonitorState) (now_ms : Nat) (cmd : Option Char)
    (sensor : SensorReading) (nvs_write_ok : Bool) : UpdateResult :=
  let current_ma : ℚ := (cfg.current_polarity : ℚ) * sensor.current_ma
  let abs_current_ma := |current_ma|
  let effective_current_ma :=
    if abs_current_ma < cfg.current_deadzone_ma then 0 else current_ma
  let c1 := command_step cfg st now_ms cmd sensor.bus_voltage_v nvs_write_ok
  let st2 := integrate_step cfg c1.1 now_ms effective_current_ma
  let c3 := full_charge_step cfg st2 now_ms sensor.bus_voltage_v abs_current_ma nvs_write_ok
  let c4 := maybe_save_to_nvs cfg c3.1 now_ms false nvs_write_ok
  { state := c4.1,
    sample := { bus_voltage_v := sensor.bus_voltage_v,
                shunt_voltage_mv := sensor.shunt_voltage_mv,
                current_ma := current_ma,
                power_mw := sensor.power_mw,
                power2_mw := sensor.bus_voltage_v * abs_current_ma,
                remaining_capacity_mah := c4.1.remaining_capacity_mah,
                soc_percent := c4.1.soc_percent },
    writes := c1.2.toList ++ c3.2.toList ++ c4.2.toList }

/-- Startup sample count in begin:
`samples = startup_voltage_samples > 0 ? startup_voltage_samples : 1`. -/
def begin_samples (cfg : Config) : Nat :=
  if 0 < cfg.startup_voltage_samples then cfg.startup_voltage_samples else 1

/-- Averaged startup voltage in begin; `readings i` is the i-th
getBusVoltage() value. -/
def begin_startup_voltage (cfg : Config) (readings : Nat → ℚ) : ℚ :=
  (((List.range (begin_samples cfg)).map readings).sum) / (begin_samples cfg : ℚ)

/-- State established by Ina226BatteryMonitor::begin after a successful
sensor init: OCV estimate from the averaged startup voltage, overridden by
the clamped NVS value when the load succeeds (the seed write on failure
touches only storage). -/
def begin_state (cfg : Config) (readings : Nat → ℚ) (stored : Option (List Nat))
    (now_ms : Nat) : MonitorState :=
  let startup_voltage_v := begin_startup_voltage cfg readings
  let soc0 := get_soc_from_voltage cfg.soc_table startup_voltage_v
  let rem0 := soc0 / 100 * cfg.battery_capacity_mah
  let rs :=
    match load_remaining_capacity_from_nvs cfg stored with
    | .ok saved =>
        let r := clampCode saved cfg.battery_capacity_mah
        (r, r / cfg.battery_capacity_mah * 100)
    | .error _ => (rem0, soc0)
  { remaining_capacity_mah := rs.1,
    soc_percent := rs.2,
    last_time_ms := now_ms,
    last_nvs_save_ms := now_ms,
    last_saved_remaining_capacity_mah := some rs.1 }

/-- The spec's runtime-state invariant `0 ≤ remaining ≤ capacity`. -/
def remainingInvariant (cfg : Config) (st : MonitorState) : Prop :=
  0 ≤ st.remaining_capacity_mah ∧ st.remaining_capacity_mah ≤ cfg.battery_capacity_mah

/-- All percent entries of the selected SOC table lie in `[0, 100]`. -/
def tablePercentsOk (cfg : Config) : Prop :=
  ∀ p ∈ selectTable cfg.soc_table, 0 ≤ p.soc_percent ∧ p.soc_percent ≤ 100

/-- The spec's OCV-table well-formedness invariant: voltages strictly
decreasing along the table. -/
def tableSortedDecr (t : List SocPoint) : Prop :=
  t.Pairwise (fun p3 q3 => q3.voltage_v < p3.voltage_v)

/-- The four validation checks of decode_persisted, as one predicate. -/
def checksOk (bytes : List Nat) (expected_capacity_mah : ℚ) : Prop :=
  bytes.length = 20 ∧
  leNat bytes 0 4 = k_battery_state_magic ∧
  leNat bytes 4 2 = k_battery_state_version ∧
  leNat bytes 8 4 = castU32 (expected_capacity_mah + 1/2) ∧
  leNat bytes 16 4 = calc_crc32_le (bytes.take 16)

/-- Configuration with the default values of the Config struct in the header. -/
def defaultCfg : Config :=
  { battery_capacity_mah := 3000, current_polarity := 1, current_deadzone_ma := 1,
    soc_table := none, nvs_namespace := some "bat", nvs_key_state := some "state",
    save_interval_ms := 600000, min_save_delta_mah := 1, startup_voltage_samples := 5,
    full_charge_voltage_v := 12.5, full_charge_current_ma := 50 }

/-- A custom SOC table with strictly decreasing voltages and percents, but
percent values above 100. -/
def overTable : List SocPoint := [⟨5, 200⟩, ⟨1, 100⟩]

/-- Configuration selecting overTable. -/
def overCfg : Config :=
  { defaultCfg with battery_capacity_mah := 1000, soc_table := some overTable }

/-- A well-formed runtime state with a full 1000 mAh battery. -/
def fullState : MonitorState :=
  ⟨1000, 100, 0, 0, some 1000⟩

/-- Configuration with a short save interval, for the throttle claims. -/
def throttleCfg : Config :=
  { defaultCfg with save_interval_ms := 1000, min_save_delta_mah := 1 }

/-- Runtime state whose remaining value equals the last saved value. -/
def throttleState : MonitorState :=
  ⟨50, 5, 0, 0, some 50⟩

/-- Configuration whose full-charge voltage threshold is 10 V and whose
deadzone swallows small currents. -/
def fcCfg : Config :=
  { defaultCfg with
    battery_capacity_mah := 1000
    full_charge_voltage_v := 10
    current_deadzone_ma := 1000 }

/-- A sensor reading at 12 V bus voltage with a 5 mA current. -/
def fcSensor : SensorReading :=
  ⟨12, 0, 5, 60⟩

/-- A partially discharged runtime state. -/
def lowState : MonitorState :=
  ⟨50, 5, 0, 0, some 50⟩

/-! ## Helper lemmas -/

/-- maybe_save_to_nvs never changes the remaining-capacity field. -/
theorem maybe_save_remaining (cfg : Config) (st : MonitorState) (now_ms : Nat)
    (force nvs_write_ok : Bool) :
    (maybe_save_to_nvs cfg st now_ms force nvs_write_ok).1.remaining_capacity_mah =
      st.remaining_capacity_mah := by
  unfold maybe_save_to_nvs
  split_ifs <;> rfl

/-- maybe_save_to_nvs never changes the SOC field. -/
theorem maybe_save_soc (cfg : Config) (st : MonitorState) (now_ms : Nat)
    (force nvs_write_ok : Bool) :
    (maybe_save_to_nvs cfg st now_ms force nvs_write_ok).1.soc_percent = st.soc_percent := by
  unfold maybe_save_to_nvs
  split_ifs <;> rfl

/-- A forced save with persistence enabled always attempts the storage write. -/
theorem maybe_save_forced (cfg : Config) (st : MonitorState) (now_ms : Nat)
    (nvs_write_ok : Bool) (hnvs : is_nvs_enabled cfg = true) :
    (maybe_save_to_nvs cfg st now_ms true nvs_write_ok).2 = some true := by
  unfold maybe_save_to_nvs
  simp only [hnvs]
  split_ifs <;> simp_all

/-- The code's clamp agrees with `min`/`max` when the capacity is nonnegative. -/
theorem clampCode_eq_min_max (x cap : ℚ) (hcap : 0 ≤ cap) :
    clampCode x cap = min cap (max 0 x) := by
  simp only [clampCode]
  rcases lt_or_ge x 0 with hx | hx
  · rw [if_pos hx, if_neg (not_lt.2 hcap), max_eq_left hx.le, min_eq_right hcap]
  · rw [if_neg (not_lt.2 hx), max_eq_right hx]
    rcases lt_or_ge cap x with hcx | hcx
    · rw [if_pos hcx, min_eq_left hcx.le]
    · rw [if_neg (not_lt.2 hcx), min_eq_right hcx]

/-- The code's clamp lands in `[0, cap]` when the capacity is nonnegative. -/
theorem clampCode_bounds (x cap : ℚ) (hcap : 0 ≤ cap) :
    0 ≤ clampCode x cap ∧ clampCode x cap ≤ cap := by
  simp only [clampCode]
  split_ifs <;> constructor <;> linarith

/-- Integration with a positive elapsed time: subtract the integrated
charge, clamp, recompute SOC, stamp the time. -/
theorem integrate_step_pos (cfg : Config) (st : MonitorState) (now_ms : Nat) (eff : ℚ)
    (T : Nat) (hT : wsub now_ms st.last_time_ms = T) (h : 0 < T) :
    integrate_step cfg st now_ms eff =
      { st with
        remaining_capacity_mah :=
          clampCode (st.remaining_capacity_mah - eff * ((T : ℚ) / 3600000))
            cfg.battery_capacity_mah,
        soc_percent :=
          clampCode (st.remaining_capacity_mah - eff * ((T : ℚ) / 3600000))
            cfg.battery_capacity_mah / cfg.battery_capacity_mah * 100,
        last_time_ms := now_ms } := by
  simp only [integrate_step, hT]
  rw [if_pos h]

/-- A selected table always has at least two entries. -/
theorem selectTable_two_le (t : Option (List SocPoint)) : 2 ≤ (selectTable t).length := by
  cases t with
  | none => simp [selectTable, k_default_soc_table]
  | some l =>
    simp only [selectTable]
    by_cases h : l.length < 2
    · rw [if_pos h]
      simp [k_default_soc_table]
    · rw [if_neg h]
      omega

/-- The interpolated value between two in-range breakpoints stays in range. -/
theorem interpOf_bounds (hi lo : SocPoint) (v : ℚ)
    (hv1 : v ≤ hi.voltage_v) (hv2 : lo.voltage_v < v)
    (hlo0 : 0 ≤ lo.soc_percent) (hlo1 : lo.soc_percent ≤ 100)
    (hhi0 : 0 ≤ hi.soc_percent) (hhi1 : hi.soc_percent ≤ 100) :
    0 ≤ interpOf hi lo v ∧ interpOf hi lo v ≤ 100 := by
  have hd : 0 < hi.voltage_v - lo.voltage_v := by linarith
  have hne : hi.voltage_v - lo.voltage_v ≠ 0 := ne_of_gt hd
  have key : interpOf hi lo v =
      ((hi.voltage_v - v) * lo.soc_percent + (v - lo.voltage_v) * hi.soc_percent) /
        (hi.voltage_v - lo.voltage_v) := by
    unfold interpOf
    field_simp
    ring
  constructor
  · rw [key]
    apply div_nonneg _ hd.le
    have h1 : 0 ≤ (hi.voltage_v - v) * lo.soc_percent := mul_nonneg (by linarith) hlo0
    have h2 : 0 ≤ (v - lo.voltage_v) * hi.soc_percent := mul_nonneg (by linarith) hhi0
    linarith
  · rw [key, div_le_iff₀ hd]
    have h1 : (hi.voltage_v - v) * lo.soc_percent ≤ (hi.voltage_v - v) * 100 :=
      mul_le_mul_of_nonneg_left hlo1 (by linarith)
    have h2 : (v - lo.voltage_v) * hi.soc_percent ≤ (v - lo.voltage_v) * 100 :=
      mul_le_mul_of_nonneg_left hhi1 (by linarith)
    linarith

/-- A value produced by the interpolation loop over an in-range table stays
in range. -/
theorem interpLoop_range (v : ℚ) (t : List SocPoint)
    (h : ∀ p ∈ t, 0 ≤ p.soc_percent ∧ p.soc_percent ≤ 100) :
    ∀ q, interpLoop v t = some q → 0 ≤ q ∧ q ≤ 100 := by
  induction t with
  | nil => intro q hq; simp [interpLoop] at hq
  | cons a tail ih =>
    intro q hq
    cases tail with
    | nil => simp [interpLoop] at hq
    | cons b rest =>
      simp only [interpLoop] at hq
      split at hq
      · rename_i hcond
        obtain rfl : interpOf a b v = q := by injection hq
        exact interpOf_bounds a b v hcond.1 hcond.2
          (h b (by simp)).1 (h b (by simp)).2 (h a (by simp)).1 (h a (by simp)).2
      · exact ih (fun p hp => h p (List.mem_cons_of_mem a hp)) q hq

/-- get_soc_from_voltage stays in `[0, 100]` whenever every percent entry of
the selected table is in `[0, 100]`. -/
theorem get_soc_range (cfgTable : Option (List SocPoint)) (v : ℚ)
    (h : ∀ p ∈ selectTable cfgTable, 0 ≤ p.soc_percent ∧ p.soc_percent ≤ 100) :
    0 ≤ get_soc_from_voltage cfgTable v ∧ get_soc_from_voltage cfgTable v ≤ 100 := by
  have hlen : 2 ≤ (selectTable cfgTable).length := selectTable_two_le cfgTable
  unfold get_soc_from_voltage socFromTable
  have h0 : getP (selectTable cfgTable) 0 ∈ selectTable cfgTable := by
    unfold getP
    rw [List.getD_eq_getElem _ _ (by omega)]
    exact List.getElem_mem _
  have hlast : getP (selectTable cfgTable) ((selectTable cfgTable).length - 1) ∈
      selectTable cfgTable := by
    unfold getP
    rw [List.getD_eq_getElem _ _ (by omega)]
    exact List.getElem_mem _
  split_ifs
  · exact h _ h0
  · exact h _ hlast
  · cases hq : interpLoop v (selectTable cfgTable) with
    | none => simp only [hq]; exact h _ hlast
    | some q => simp only [hq]; exact interpLoop_range v _ h q hq

/-- Scaling an in-range SOC to a remaining capacity lands in `[0, cap]`. -/
theorem soc_scale_range (cap s : ℚ) (hcap : 0 ≤ cap) (h0 : 0 ≤ s) (h1 : s ≤ 100) :
    0 ≤ s / 100 * cap ∧ s / 100 * cap ≤ cap := by
  constructor
  · positivity
  · nlinarith

/-- reset_state_from_voltage establishes the invariant for in-range tables. -/
theorem reset_state_invariant (cfg : Config) (st : MonitorState) (v : ℚ)
    (hcap : 0 ≤ cfg.battery_capacity_mah) (htab : tablePercentsOk cfg) :
    remainingInvariant cfg (reset_state_from_voltage cfg st v) := by
  have hs := get_soc_range cfg.soc_table v htab
  simp only [reset_state_from_voltage, remainingInvariant]
  exact soc_scale_range _ _ hcap hs.1 hs.2

/-- The command block preserves the invariant for in-range tables. -/
theorem command_step_invariant (cfg : Config) (st : MonitorState) (now_ms : Nat)
    (cmd : Option Char) (bus : ℚ) (ok : Bool)
    (hcap : 0 ≤ cfg.battery_capacity_mah) (htab : tablePercentsOk cfg)
    (hst : remainingInvariant cfg st) :
    remainingInvariant cfg (command_step cfg st now_ms cmd bus ok).1 := by
  cases cmd with
  | none =>
    simp only [command_step]
    exact hst
  | some c =>
    simp only [command_step]
    split_ifs with hc
    · unfold remainingInvariant
      rw [maybe_save_remaining]
      exact reset_state_invariant cfg st bus hcap htab
    · exact hst

/-- The integration block preserves the invariant. -/
theorem integrate_step_invariant (cfg : Config) (st : MonitorState) (now_ms : Nat)
    (eff : ℚ) (hcap : 0 ≤ cfg.battery_capacity_mah)
    (hst : remainingInvariant cfg st) :
    remainingInvariant cfg (integrate_step cfg st now_ms eff) := by
  simp only [integrate_step]
  split_ifs
  · exact clampCode_bounds _ _ hcap
  · exact hst

/-- The full-charge block preserves the invariant. -/
theorem full_charge_step_invariant (cfg : Config) (st : MonitorState) (now_ms : Nat)
    (bus abs_i : ℚ) (ok : Bool) (hcap : 0 ≤ cfg.battery_capacity_mah)
    (hst : remainingInvariant cfg st) :
    remainingInvariant cfg (full_charge_step cfg st now_ms bus abs_i ok).1 := by
  unfold full_charge_step
  split_ifs
  · unfold remainingInvariant
    rw [maybe_save_remaining]
    exact ⟨hcap, le_refl _⟩
  · exact hst

/-- A full update tick preserves the invariant for in-range tables. -/
theorem update_state_invariant (cfg : Config) (st : MonitorState) (now_ms : Nat)
    (cmd : Option Char) (sensor : SensorReading) (ok : Bool)
    (hcap : 0 ≤ cfg.battery_capacity_mah) (htab : tablePercentsOk cfg)
    (hst : remainingInvariant cfg st) :
    remainingInvariant cfg (update cfg st now_ms cmd sensor ok).state := by
  simp only [update]
  unfold remainingInvariant
  rw [maybe_save_remaining]
  exact full_charge_step_invariant _ _ _ _ _ _ hcap
    (integrate_step_invariant _ _ _ _ hcap
      (command_step_invariant _ _ _ _ _ _ hcap htab hst))

/-- begin establishes the invariant for in-range tables, on both the
load-success (override) and load-failure (OCV estimate) paths. -/
theorem begin_state_invariant (cfg : Config) (readings : Nat → ℚ)
    (stored : Option (List Nat)) (now_ms : Nat)
    (hcap : 0 ≤ cfg.battery_capacity_mah) (htab : tablePercentsOk cfg) :
    remainingInvariant cfg (begin_state cfg readings stored now_ms) := by
  cases hl : load_remaining_capacity_from_nvs cfg stored with
  | ok saved =>
    simp only [remainingInvariant, begin_state, hl]
    exact clampCode_bounds _ _ hcap
  | error e =>
    simp only [remainingInvariant, begin_state, hl]
    have hs := get_soc_range cfg.soc_table (begin_startup_voltage cfg readings) htab
    exact soc_scale_range _ _ hcap hs.1 hs.2

/-! ## Claim theorems -/

/-- C1 counterexample: with a configured two-entry table whose percents are
strictly decreasing but exceed 100, reset_state_from_voltage leaves
remaining = 2000 mAh against a 1000 mAh capacity, violating
`0 ≤ remaining ≤ capacity` immediately after the mutation. -/
theorem reset_invariant_cex :
    overCfg.soc_table = some overTable ∧ 2 ≤ overTable.length ∧
    ¬ remainingInvariant overCfg (reset_state_from_voltage overCfg fullState 6) := by
  refine ⟨rfl, by decide, ?_⟩
  intro hinv
  have hsoc : get_soc_from_voltage overCfg.soc_table 6 = 200 := by
    have hsel : selectTable overCfg.soc_table = overTable := rfl
    rw [get_soc_from_voltage, hsel]
    unfold socFromTable
    rw [if_pos (by norm_num [getP, overTable])]
    norm_num [getP, overTable]
  have hr : (reset_state_from_voltage overCfg fullState 6).remaining_capacity_mah = 2000 := by
    simp only [reset_state_from_voltage, hsoc]
    norm_num [overCfg, defaultCfg]
  have h2 := hinv.2
  rw [hr] at h2
  norm_num [overCfg, defaultCfg] at h2

/-- C1 (amended): provided the configured capacity is nonnegative and every
percent entry of the selected SOC table lies in `[0, 100]` (the spec's
estimator contract `percent ∈ [0,100]`), every runtime-state mutation keeps
`0 ≤ remaining ≤ capacity`: begin's state construction (load-and-override
included) establishes it, every update tick (command handling, integration
and full-charge handling) preserves it, and reset_state_from_voltage
establishes it for any such configured table. -/
theorem state_mutations_keep_invariant (cfg : Config)
    (hcap : 0 ≤ cfg.battery_capacity_mah) (htab : tablePercentsOk cfg) :
    (∀ readings stored now_ms,
      remainingInvariant cfg (begin_state cfg readings stored now_ms)) ∧
    (∀ st now_ms cmd sensor ok, remainingInvariant cfg st →
      remainingInvariant cfg (update cfg st now_ms cmd sensor ok).state) ∧
    (∀ st v, remainingInvariant cfg (reset_state_from_voltage cfg st v)) :=
  ⟨fun readings stored now_ms => begin_state_invariant cfg readings stored now_ms hcap htab,
   fun st now_ms cmd sensor ok hst =>
     update_state_invariant cfg st now_ms cmd sensor ok hcap htab hst,
   fun st v => reset_state_invariant cfg st v hcap htab⟩

/-- Witness for the amended C1: the default table keeps the invariant
through a reset at 6 V. -/
theorem state_mutations_keep_invariant_witness :
    remainingInvariant defaultCfg (reset_state_from_voltage defaultCfg fullState 6) := by
  have htab : tablePercentsOk defaultCfg := by
    intro p hp
    simp only [tablePercentsOk, defaultCfg, selectTable, k_default_soc_table,
      List.mem_cons, List.not_mem_nil, or_false] at hp
    rcases hp with rfl | rfl | rfl | rfl | rfl | rfl | rfl | rfl | rfl | rfl | rfl <;>
      norm_num
  exact (state_mutations_keep_invariant defaultCfg (by norm_num [defaultCfg]) htab).2.2
    fullState 6

/-- C3: decoding a persisted record fails with sizeMismatch on a length
other than 20 bytes, with badMagicVersion when magic or version differ,
with capacityMismatch when the stored capacity differs from the expected
capacity rounded to the nearest integer, with crcMismatch when the CRC-32
over the first 16 bytes differs, and succeeds exactly when all four checks
pass, returning `remaining_mah_x100 / 100`. -/
theorem decode_persisted_spec (bytes : List Nat) (C : ℚ) :
    (decode_persisted bytes C = Except.ok ((leNat bytes 12 4 : ℚ) / 100) ↔ checksOk bytes C) ∧
    (∀ rr, decode_persisted bytes C = Except.ok rr → rr = (leNat bytes 12 4 : ℚ) / 100) ∧
    (bytes.length ≠ 20 → decode_persisted bytes C = Except.error LoadError.sizeMismatch) ∧
    (bytes.length = 20 →
      ¬(leNat bytes 0 4 = k_battery_state_magic ∧
        leNat bytes 4 2 = k_battery_state_version) →
      decode_persisted bytes C = Except.error LoadError.badMagicVersion) ∧
    (bytes.length = 20 → leNat bytes 0 4 = k_battery_state_magic →
      leNat bytes 4 2 = k_battery_state_version →
      leNat bytes 8 4 ≠ castU32 (C + 1/2) →
      decode_persisted bytes C = Except.error LoadError.capacityMismatch) ∧
    (bytes.length = 20 → leNat bytes 0 4 = k_battery_state_magic →
      leNat bytes 4 2 = k_battery_state_version →
      leNat bytes 8 4 = castU32 (C + 1/2) →
      leNat bytes 16 4 ≠ calc_crc32_le (bytes.take 16) →
      decode_persisted bytes C = Except.error LoadError.crcMismatch) := by
  simp only [decode_persisted, checksOk]
  split_ifs with h1 h2 h3 h4 <;>
    refine ⟨?_, ?_, ?_, ?_, ?_, ?_⟩ <;> simp_all <;> tauto

/-- Witness for C3: the empty byte sequence is rejected as a size mismatch. -/
theorem decode_persisted_spec_witness :
    decode_persisted [] 3000 = Except.error LoadError.sizeMismatch :=
  (decode_persisted_spec [] 3000).2.2.1 (by decide)

/-- castU32 lands below `2^32`. -/
theorem castU32_lt (q : ℚ) : castU32 q < 2 ^ 32 :=
  Nat.mod_lt _ (by norm_num)

/-- One CRC shift-xor round keeps values below `2^32`. -/
theorem crc32_step_lt (c : Nat) (h : c < 2 ^ 32) : crc32_step c < 2 ^ 32 := by
  unfold crc32_step
  have h1 : c / 2 < 2 ^ 32 := lt_of_le_of_lt (Nat.div_le_self c 2) h
  split_ifs
  · exact Nat.xor_lt_two_pow h1 (by norm_num)
  · exact Nat.xor_lt_two_pow h1 (by norm_num)

/-- The CRC bit loop keeps values below `2^32`. -/
theorem crc32_bits_lt (k c : Nat) (h : c < 2 ^ 32) : crc32_bits k c < 2 ^ 32 := by
  induction k generalizing c with
  | zero => exact h
  | succ m ih => exact ih _ (crc32_step_lt c h)

/-- The CRC byte step keeps values below `2^32` for bytes below 256. -/
theorem crc32_byte_lt (c b : Nat) (hc : c < 2 ^ 32) (hb : b < 256) :
    crc32_byte c b < 2 ^ 32 :=
  crc32_bits_lt 8 _ (Nat.xor_lt_two_pow hc (lt_trans hb (by norm_num)))

/-- The CRC fold keeps values below `2^32` for byte lists. -/
theorem crc32_foldl_lt (l : List Nat) (h : ∀ b ∈ l, b < 256) :
    ∀ c, c < 2 ^ 32 → l.foldl crc32_byte c < 2 ^ 32 := by
  induction l with
  | nil =>
    intro c hc
    simpa using hc
  | cons a tail ih =>
    intro c hc
    simp only [List.foldl_cons]
    exact ih (fun b hb => h b (List.mem_cons_of_mem a hb)) _
      (crc32_byte_lt c a hc (h a (List.mem_cons_self a tail)))

/-- The CRC-32 of a byte list is below `2^32`. -/
theorem calc_crc32_le_lt (l : List Nat) (h : ∀ b ∈ l, b < 256) :
    calc_crc32_le l < 2 ^ 32 :=
  Nat.xor_lt_two_pow (by norm_num) (crc32_foldl_lt l h _ (by norm_num))

/-- toLE produces a 4-byte little-endian digit list. -/
theorem toLE4_explicit (n : Nat) :
    toLE n 4 = [n % 256, n / 256 % 256, n / 65536 % 256, n / 16777216 % 256] := by
  rw [toLE, show List.range 4 = [0, 1, 2, 3] from rfl]
  norm_num

/-- toLE produces a 2-byte little-endian digit list. -/
theorem toLE2_explicit (n : Nat) : toLE n 2 = [n % 256, n / 256 % 256] := by
  rw [toLE, show List.range 2 = [0, 1] from rfl]
  norm_num

/-- Expansion of a 4-byte little-endian read. -/
theorem leNat4 (bytes : List Nat) (off : Nat) :
    leNat bytes off 4 = bytes.getD off 0 + 256 * (bytes.getD (off + 1) 0 +
      256 * (bytes.getD (off + 2) 0 + 256 * bytes.getD (off + 3) 0)) := by
  rw [leNat, show List.range 4 = [0, 1, 2, 3] from rfl]
  simp

/-- Expansion of a 2-byte little-endian read. -/
theorem leNat2 (bytes : List Nat) (off : Nat) :
    leNat bytes off 2 = bytes.getD off 0 + 256 * bytes.getD (off + 1) 0 := by
  rw [leNat, show List.range 2 = [0, 1] from rfl]
  simp

/-- Peeling one byte off a little-endian read. -/
theorem leNat_succ (bytes : List Nat) (off cnt : Nat) :
    leNat bytes off (cnt + 1) = bytes.getD off 0 + 256 * leNat bytes (off + 1) cnt := by
  unfold leNat
  rw [List.range_succ_eq_map, List.foldr_cons, List.foldr_map]
  have hf : (fun (x y : Nat) => bytes.getD (off + x.succ) 0 + 256 * y) =
      (fun i acc => bytes.getD (off + 1 + i) 0 + 256 * acc) := by
    funext i acc
    have hx : off + i.succ = off + 1 + i := by omega
    rw [hx]
  rw [hf]
  norm_num

/-- A little-endian read confined to the left part of an append. -/
theorem leNat_append_left (l1 l2 : List Nat) (off cnt : Nat) (h : off + cnt ≤ l1.length) :
    leNat (l1 ++ l2) off cnt = leNat l1 off cnt := by
  induction cnt generalizing off with
  | zero => rfl
  | succ k ih =>
    rw [leNat_succ, leNat_succ, List.getD_append l1 l2 0 off (by omega), ih (off + 1) (by omega)]

/-- A little-endian read confined to the right part of an append. -/
theorem leNat_append_right (l1 l2 : List Nat) (off cnt : Nat) (h : l1.length ≤ off) :
    leNat (l1 ++ l2) off cnt = leNat l2 (off - l1.length) cnt := by
  induction cnt generalizing off with
  | zero => rfl
  | succ k ih =>
    rw [leNat_succ, leNat_succ, List.getD_append_right l1 l2 0 off h, ih (off + 1) (by omega)]
    have : off + 1 - l1.length = off - l1.length + 1 := by omega
    rw [this]

/-- Reading back a 4-byte little-endian field recovers the value mod `2^32`. -/
theorem leNat_toLE4 (n : Nat) : leNat (toLE n 4) 0 4 = n % 2 ^ 32 := by
  rw [toLE4_explicit, leNat4]
  simp only [List.getD_cons_zero, List.getD_cons_succ]
  omega

/-- Reading back a 2-byte little-endian field recovers the value mod `2^16`. -/
theorem leNat_toLE2 (n : Nat) : leNat (toLE n 2) 0 2 = n % 2 ^ 16 := by
  rw [toLE2_explicit, leNat2]
  simp only [List.getD_cons_zero, List.getD_cons_succ]
  omega

/-- Length of a little-endian field. -/
theorem toLE_length (n count : Nat) : (toLE n count).length = count := by
  simp [toLE]

/-- Every byte of a little-endian field is below 256. -/
theorem toLE_lt (n count : Nat) : ∀ b ∈ toLE n count, b < 256 := by
  intro b hb
  simp only [toLE, List.mem_map] at hb
  obtain ⟨i, _, rfl⟩ := hb
  exact Nat.mod_lt _ (by norm_num)

/-- Every byte of an encoded record is below 256. -/
theorem save_encode_bytes_lt (cfg : Config) (r : ℚ) :
    ∀ b ∈ save_encode cfg r, b < 256 := by
  intro b hb
  simp only [save_encode, List.mem_append] at hb
  rcases hb with ((((hb | hb) | hb) | hb) | hb) | hb <;> exact toLE_lt _ _ _ hb

/-- Field extraction from a list with the packed record's 4/2/2/4/4/4
little-endian layout. -/
theorem record_fields (a b c d e f : Nat) (L : List Nat)
    (hL : L = toLE a 4 ++ toLE b 2 ++ toLE c 2 ++ toLE d 4 ++ toLE e 4 ++ toLE f 4) :
    leNat L 0 4 = a % 2 ^ 32 ∧
    leNat L 4 2 = b % 2 ^ 16 ∧
    leNat L 8 4 = d % 2 ^ 32 ∧
    leNat L 12 4 = e % 2 ^ 32 ∧
    leNat L 16 4 = f % 2 ^ 32 ∧
    L.length = 20 ∧
    L.take 16 = toLE a 4 ++ toLE b 2 ++ toLE c 2 ++ toLE d 4 ++ toLE e 4 := by
  subst hL
  have l16 : (toLE a 4 ++ toLE b 2 ++ toLE c 2 ++ toLE d 4 ++ toLE e 4).length = 16 := by
    simp [toLE_length]
  have l12 : (toLE a 4 ++ toLE b 2 ++ toLE c 2 ++ toLE d 4).length = 12 := by
    simp [toLE_length]
  have l8 : (toLE a 4 ++ toLE b 2 ++ toLE c 2).length = 8 := by
    simp [toLE_length]
  have l6 : (toLE a 4 ++ toLE b 2).length = 6 := by
    simp [toLE_length]
  have l4 : (toLE a 4).length = 4 := toLE_length a 4
  refine ⟨?_, ?_, ?_, ?_, ?_, ?_, ?_⟩
  · rw [leNat_append_left _ _ 0 4 (by omega), leNat_append_left _ _ 0 4 (by omega),
      leNat_append_left _ _ 0 4 (by omega), leNat_append_left _ _ 0 4 (by omega),
      leNat_append_left _ _ 0 4 (by omega), leNat_toLE4]
  · rw [leNat_append_left _ _ 4 2 (by omega), leNat_append_left _ _ 4 2 (by omega),
      leNat_append_left _ _ 4 2 (by omega), leNat_append_left _ _ 4 2 (by omega),
      leNat_append_right _ _ 4 2 (by omega), l4, leNat_toLE2]
  · rw [leNat_append_left _ _ 8 4 (by omega), leNat_append_left _ _ 8 4 (by omega),
      leNat_append_right _ _ 8 4 (by omega), l8, leNat_toLE4]
  · rw [leNat_append_left _ _ 12 4 (by omega), leNat_append_right _ _ 12 4 (by omega),
      l12, leNat_toLE4]
  · rw [leNat_append_right _ _ 16 4 (by omega), l16, leNat_toLE4]
  · simp [toLE_length]
  · exact List.take_left' l16

/-- decode_persisted succeeds when the four checks hold, returning the
scaled remaining field. -/
theorem decode_persisted_ok (bytes : List Nat) (C : ℚ)
    (hl : bytes.length = 20)
    (hm : leNat bytes 0 4 = k_battery_state_magic)
    (hv : leNat bytes 4 2 = k_battery_state_version)
    (hc : leNat bytes 8 4 = castU32 (C + 1/2))
    (hcrc : leNat bytes 16 4 = calc_crc32_le (bytes.take 16)) :
    decode_persisted bytes C = Except.ok ((leNat bytes 12 4 : ℚ) / 100) := by
  simp only [decode_persisted]
  rw [if_neg (by omega : ¬ bytes.length ≠ 20), if_neg (by simp [hm, hv]),
    if_neg (by simp [hc]), if_neg (by simp [hcrc])]

/-- C4: for any remaining value `r` in `[0, capacity]`, with the capacity
small enough that the scaled uint32 field cannot overflow, decoding the
encoded record against the same configured capacity succeeds and returns a
value within 0.01 mAh of `r`. -/
theorem decode_encode_roundtrip (cfg : Config) (r : ℚ)
    (h0 : 0 ≤ r) (h1 : r ≤ cfg.battery_capacity_mah)
    (hC : cfg.battery_capacity_mah * 100 + 1/2 < 2 ^ 32) :
    ∃ rr, decode_persisted (save_encode cfg r) cfg.battery_capacity_mah = Except.ok rr ∧
      |rr - r| ≤ 1/100 := by
  have hclamp : clampCode r cfg.battery_capacity_mah = r := by
    simp only [clampCode]
    rw [if_neg (not_lt.2 h0), if_neg (not_lt.2 h1)]
  obtain ⟨e1, e2, e3, e4, e5, e6, e7⟩ :=
    record_fields k_battery_state_magic k_battery_state_version 0
      (castU32 (cfg.battery_capacity_mah + 1/2))
      (castU32 (clampCode r cfg.battery_capacity_mah * 100 + 1/2))
      (calc_crc32_le (toLE k_battery_state_magic 4 ++ toLE k_battery_state_version 2 ++
        toLE 0 2 ++ toLE (castU32 (cfg.battery_capacity_mah + 1/2)) 4 ++
        toLE (castU32 (clampCode r cfg.battery_capacity_mah * 100 + 1/2)) 4))
      (save_encode cfg r) rfl
  have hok := decode_persisted_ok (save_encode cfg r) cfg.battery_capacity_mah
    e6
    (by rw [e1]; norm_num [k_battery_state_magic])
    (by rw [e2]; norm_num [k_battery_state_version])
    (by rw [e3, Nat.mod_eq_of_lt (castU32_lt _)])
    (by
      rw [e5, e7]
      have hb : ∀ x ∈ toLE k_battery_state_magic 4 ++ toLE k_battery_state_version 2 ++
          toLE 0 2 ++ toLE (castU32 (cfg.battery_capacity_mah + 1/2)) 4 ++
          toLE (castU32 (clampCode r cfg.battery_capacity_mah * 100 + 1/2)) 4,
          x < 256 := by
        intro x hx
        simp only [List.mem_append] at hx
        rcases hx with (((hx | hx) | hx) | hx) | hx <;> exact toLE_lt _ _ _ hx
      rw [Nat.mod_eq_of_lt (calc_crc32_le_lt _ hb)])
  -- the value stored in the remaining field
  have hq0 : (0 : ℚ) ≤ r * 100 + 1/2 := by linarith
  have hqlt : r * 100 + 1/2 < ((2 ^ 32 : Nat) : ℚ) := by
    have h100 : r * 100 ≤ cfg.battery_capacity_mah * 100 :=
      mul_le_mul_of_nonneg_right h1 (by norm_num)
    have hc : ((2 ^ 32 : Nat) : ℚ) = 2 ^ 32 := by norm_num
    rw [hc]
    linarith
  have hfl0 : 0 ≤ ⌊r * 100 + 1/2⌋ := Int.floor_nonneg.2 hq0
  have hflt : ⌊r * 100 + 1/2⌋ < ((2 ^ 32 : Nat) : ℤ) :=
    Int.floor_lt.2 (by exact_mod_cast hqlt)
  have hnlt : (⌊r * 100 + 1/2⌋).toNat < 2 ^ 32 := by omega
  have hval : leNat (save_encode cfg r) 12 4 = (⌊r * 100 + 1/2⌋).toNat := by
    rw [e4, Nat.mod_eq_of_lt (castU32_lt _), hclamp, castU32, Nat.mod_eq_of_lt hnlt]
  refine ⟨(leNat (save_encode cfg r) 12 4 : ℚ) / 100, hok, ?_⟩
  rw [hval]
  have hcast : (((⌊r * 100 + 1/2⌋).toNat : ℚ)) = ((⌊r * 100 + 1/2⌋ : ℤ) : ℚ) := by
    have h2 : (((⌊r * 100 + 1/2⌋).toNat : ℤ)) = ⌊r * 100 + 1/2⌋ :=
      Int.toNat_of_nonneg hfl0
    exact_mod_cast congrArg (fun z : ℤ => (z : ℚ)) h2
  rw [hcast]
  have hle : ((⌊r * 100 + 1/2⌋ : ℤ) : ℚ) ≤ r * 100 + 1/2 := Int.floor_le _
  have hgt : r * 100 + 1/2 < ((⌊r * 100 + 1/2⌋ : ℤ) : ℚ) + 1 := Int.lt_floor_add_one _
  rw [abs_le]
  constructor
  · linarith
  · linarith

/-- Strictly decreasing voltages, stated through getP. -/
theorem sorted_getP_lt (t : List SocPoint) (hs : tableSortedDecr t) (i j : Nat)
    (hij : i < j) (hj : j < t.length) :
    (getP t j).voltage_v < (getP t i).voltage_v := by
  have hi : i < t.length := lt_trans hij hj
  unfold getP
  rw [List.getD_eq_getElem _ _ hi, List.getD_eq_getElem _ _ hj]
  exact List.pairwise_iff_getElem.1 hs i j hi hj hij

/-- On a sorted table, the scan loop fires exactly at a bracketing adjacent
pair. -/
theorem interpLoop_bracket (v : ℚ) (t : List SocPoint) (hs : tableSortedDecr t) :
    ∀ i, i + 1 < t.length → (getP t (i + 1)).voltage_v < v → v ≤ (getP t i).voltage_v →
      interpLoop v t = some (interpOf (getP t i) (getP t (i + 1)) v) := by
  induction t with
  | nil =>
    intro i hi
    simp at hi
  | cons a tail ih =>
    intro i hi hlow hhigh
    cases tail with
    | nil => simp at hi
    | cons b rest =>
      cases i with
      | zero =>
        have hhigh1 : v ≤ a.voltage_v := hhigh
        have hlow1 : b.voltage_v < v := hlow
        simp only [interpLoop]
        rw [if_pos (And.intro hhigh1 hlow1)]
        rfl
      | succ j =>
        have hjlen : j + 1 < (b :: rest).length := by
          simp only [List.length_cons] at hi ⊢
          omega
        have hmono : (getP (a :: b :: rest) (j + 1)).voltage_v ≤ b.voltage_v := by
          cases j with
          | zero => exact le_refl _
          | succ k =>
            exact (sorted_getP_lt (a :: b :: rest) hs 1 (k + 1 + 1)
              (by omega) (by simp only [List.length_cons] at hi ⊢; omega)).le
        have hnot : ¬(v ≤ a.voltage_v ∧ b.voltage_v < v) := by
          intro hc
          exact absurd hc.2 (not_lt.2 (le_trans hhigh hmono))
        simp only [interpLoop]
        rw [if_neg hnot]
        exact ih hs.of_cons j hjlen hlow hhigh

/-- On a sorted table with the voltage strictly inside the table's range, a
bracketing adjacent pair exists. -/
theorem interpLoop_exists (v : ℚ) (t : List SocPoint) (hs : tableSortedDecr t)
    (h2 : 2 ≤ t.length) (hlow : (getP t (t.length - 1)).voltage_v < v)
    (hhigh : v ≤ (getP t 0).voltage_v) :
    ∃ i, i + 1 < t.length ∧ (getP t (i + 1)).voltage_v < v ∧ v ≤ (getP t i).voltage_v := by
  induction t with
  | nil => simp at h2
  | cons a tail ih =>
    cases tail with
    | nil => simp at h2
    | cons b rest =>
      by_cases hb : b.voltage_v < v
      · exact ⟨0, by simp, hb, hhigh⟩
      · cases rest with
        | nil =>
          exact absurd hlow hb
        | cons c rest2 =>
          have hhigh2 : v ≤ (getP (b :: c :: rest2) 0).voltage_v := not_lt.1 hb
          have hlow2 : (getP (b :: c :: rest2) ((b :: c :: rest2).length - 1)).voltage_v
              < v := hlow
          obtain ⟨i, h1, h2i, h3⟩ :=
            ih hs.of_cons (by simp) hlow2 hhigh2
          exact ⟨i + 1, by simpa using h1, h2i, h3⟩

/-- On a sorted table the bracketing adjacent pair is unique. -/
theorem bracket_unique (t : List SocPoint) (hs : tableSortedDecr t) (i j : Nat)
    (hi : i + 1 < t.length) (hj : j + 1 < t.length) (v : ℚ)
    (hbi1 : (getP t (i + 1)).voltage_v < v) (hbi2 : v ≤ (getP t i).voltage_v)
    (hbj1 : (getP t (j + 1)).voltage_v < v) (hbj2 : v ≤ (getP t j).voltage_v) :
    i = j := by
  rcases lt_trichotomy i j with h | h | h
  · exfalso
    have hle : (getP t j).voltage_v ≤ (getP t (i + 1)).voltage_v := by
      rcases Nat.eq_or_lt_of_le (show i + 1 ≤ j by omega) with he | hl
      · rw [he]
      · exact (sorted_getP_lt t hs (i + 1) j hl (by omega)).le
    linarith
  · exact h
  · exfalso
    have hle : (getP t i).voltage_v ≤ (getP t (j + 1)).voltage_v := by
      rcases Nat.eq_or_lt_of_le (show j + 1 ≤ i by omega) with he | hl
      · rw [he]
      · exact (sorted_getP_lt t hs (j + 1) i hl (by omega)).le
    linarith

/-- Any hit of the scan loop is a bracketing adjacent pair's interpolation. -/
theorem interpLoop_some (v : ℚ) (t : List SocPoint) :
    ∀ p, interpLoop v t = some p →
      ∃ i, i + 1 < t.length ∧ (getP t (i + 1)).voltage_v < v ∧
        v ≤ (getP t i).voltage_v ∧ p = interpOf (getP t i) (getP t (i + 1)) v := by
  induction t with
  | nil =>
    intro p hp
    simp [interpLoop] at hp
  | cons a tail ih =>
    intro p hp
    cases tail with
    | nil => simp [interpLoop] at hp
    | cons b rest =>
      simp only [interpLoop] at hp
      split at hp
      · rename_i hc
        obtain rfl : interpOf a b v = p := by injection hp
        exact ⟨0, by simp, hc.2, hc.1, rfl⟩
      · obtain ⟨i, h1, h2, h3, h4⟩ := ih p hp
        exact ⟨i + 1, by simpa using h1, h2, h3, h4⟩

/-- C5: over the selected table (the configured one when non-null with
length ≥ 2, else the built-in default), assumed strictly decreasing in
voltage as the spec's table invariant demands, the estimator saturates to
the first entry's percent at or above the first voltage, saturates to the
last entry's percent at or below the last voltage, and otherwise returns
the linear interpolation over the bracketing adjacent pair with
`low.voltage < v ≤ high.voltage`, which exists and is unique. -/
theorem get_soc_piecewise (cfgTable : Option (List SocPoint)) (v : ℚ)
    (hs : tableSortedDecr (selectTable cfgTable)) :
    (v ≥ (getP (selectTable cfgTable) 0).voltage_v →
      get_soc_from_voltage cfgTable v = (getP (selectTable cfgTable) 0).soc_percent) ∧
    (v ≤ (getP (selectTable cfgTable) ((selectTable cfgTable).length - 1)).voltage_v →
      get_soc_from_voltage cfgTable v =
        (getP (selectTable cfgTable) ((selectTable cfgTable).length - 1)).soc_percent) ∧
    (∀ i, i + 1 < (selectTable cfgTable).length →
      v < (getP (selectTable cfgTable) 0).voltage_v →
      (getP (selectTable cfgTable) (i + 1)).voltage_v < v →
      v ≤ (getP (selectTable cfgTable) i).voltage_v →
      get_soc_from_voltage cfgTable v =
        interpOf (getP (selectTable cfgTable) i) (getP (selectTable cfgTable) (i + 1)) v) ∧
    (∀ i j, i + 1 < (selectTable cfgTable).length → j + 1 < (selectTable cfgTable).length →
      (getP (selectTable cfgTable) (i + 1)).voltage_v < v →
      v ≤ (getP (selectTable cfgTable) i).voltage_v →
      (getP (selectTable cfgTable) (j + 1)).voltage_v < v →
      v ≤ (getP (selectTable cfgTable) j).voltage_v → i = j) ∧
    (v < (getP (selectTable cfgTable) 0).voltage_v →
      (getP (selectTable cfgTable) ((selectTable cfgTable).length - 1)).voltage_v < v →
      ∃ i, i + 1 < (selectTable cfgTable).length ∧
        (getP (selectTable cfgTable) (i + 1)).voltage_v < v ∧
        v ≤ (getP (selectTable cfgTable) i).voltage_v) := by
  have h2 : 2 ≤ (selectTable cfgTable).length := selectTable_two_le cfgTable
  refine ⟨?_, ?_, ?_, ?_, ?_⟩
  · intro hge
    unfold get_soc_from_voltage socFromTable
    rw [if_pos hge]
  · intro hle
    unfold get_soc_from_voltage socFromTable
    have hnot : ¬ (getP (selectTable cfgTable) 0).voltage_v ≤ v := by
      intro hc
      have := sorted_getP_lt (selectTable cfgTable) hs 0 ((selectTable cfgTable).length - 1)
        (by omega) (by omega)
      linarith
    rw [if_neg hnot, if_pos hle]
  · intro i hi hv0 hlow hhigh
    unfold get_soc_from_voltage socFromTable
    have hnot1 : ¬ (getP (selectTable cfgTable) 0).voltage_v ≤ v := not_le.2 hv0
    have hlast : (getP (selectTable cfgTable) ((selectTable cfgTable).length - 1)).voltage_v
        ≤ (getP (selectTable cfgTable) (i + 1)).voltage_v := by
      rcases Nat.eq_or_lt_of_le (show i + 1 ≤ (selectTable cfgTable).length - 1 by omega)
        with he | hl
      · rw [he]
      · exact (sorted_getP_lt (selectTable cfgTable) hs (i + 1)
          ((selectTable cfgTable).length - 1) hl (by omega)).le
    have hnot2 : ¬ v ≤
        (getP (selectTable cfgTable) ((selectTable cfgTable).length - 1)).voltage_v := by
      intro hc
      linarith
    rw [if_neg hnot1, if_neg hnot2, interpLoop_bracket v (selectTable cfgTable) hs i hi
      hlow hhigh]
  · intro i j hi hj hbi1 hbi2 hbj1 hbj2
    exact bracket_unique (selectTable cfgTable) hs i j hi hj v hbi1 hbi2 hbj1 hbj2
  · intro hv0 hvlast
    exact interpLoop_exists v (selectTable cfgTable) hs h2 hvlast (le_of_lt hv0)

/-- Witness for C5: the default table is strictly decreasing and 13 V
saturates to the first entry's 100 percent. -/
theorem get_soc_piecewise_witness :
    get_soc_from_voltage none 13 = (getP (selectTable none) 0).soc_percent := by
  have hs : tableSortedDecr (selectTable none) := by
    simp only [tableSortedDecr, selectTable, k_default_soc_table, List.pairwise_cons,
      List.mem_cons, List.not_mem_nil, or_false]
    norm_num
  exact (get_soc_piecewise none 13 hs).1
    (by norm_num [selectTable, k_default_soc_table, getP])

/-- C9: for every selected table (the spec's well-formedness assumptions
included or not) and every voltage, the estimator's result is the first
entry's percent, the last entry's percent (the loop's fallback included),
or the interpolation of an adjacent bracketing pair: it never draws on
anything outside the table's entries. -/
theorem get_soc_total_characterization (cfgTable : Option (List SocPoint)) (v : ℚ) :
    get_soc_from_voltage cfgTable v = (getP (selectTable cfgTable) 0).soc_percent ∨
    get_soc_from_voltage cfgTable v =
      (getP (selectTable cfgTable) ((selectTable cfgTable).length - 1)).soc_percent ∨
    ∃ i, i + 1 < (selectTable cfgTable).length ∧
      (getP (selectTable cfgTable) (i + 1)).voltage_v < v ∧
      v ≤ (getP (selectTable cfgTable) i).voltage_v ∧
      get_soc_from_voltage cfgTable v =
        interpOf (getP (selectTable cfgTable) i) (getP (selectTable cfgTable) (i + 1)) v := by
  unfold get_soc_from_voltage socFromTable
  split_ifs
  · exact Or.inl rfl
  · exact Or.inr (Or.inl rfl)
  · cases hq : interpLoop v (selectTable cfgTable) with
    | none =>
      exact Or.inr (Or.inl rfl)
    | some p =>
      obtain ⟨i, h1, h2, h3, h4⟩ := interpLoop_some v (selectTable cfgTable) p hq
      exact Or.inr (Or.inr ⟨i, h1, h2, h3, h4⟩)

/-- Witness for C4 at a 3000 mAh configuration and r = 1234.56 mAh. -/
theorem decode_encode_roundtrip_witness :
    ∃ rr, decode_persisted (save_encode defaultCfg (1234.56 : ℚ))
        defaultCfg.battery_capacity_mah = Except.ok rr ∧ |rr - (1234.56 : ℚ)| ≤ 1/100 :=
  decode_encode_roundtrip defaultCfg (1234.56 : ℚ) (by norm_num)
    (by norm_num [defaultCfg]) (by norm_num [defaultCfg])

/-- C10: with `startup_voltage_samples = 0`, begin still takes exactly one
bus-voltage sample (the count is coerced to a minimum of 1 for every
configuration), so the startup voltage is the first reading itself and the
average never divides by zero. -/
theorem begin_min_one_sample (cfg : Config) (readings : Nat → ℚ)
    (h : cfg.startup_voltage_samples = 0) :
    begin_samples cfg = 1 ∧ (∀ cfg2 : Config, 1 ≤ begin_samples cfg2) ∧
    begin_startup_voltage cfg readings = readings 0 := by
  refine ⟨by simp [begin_samples, h], ?_, ?_⟩
  · intro cfg2
    unfold begin_samples
    split <;> omega
  · simp [begin_startup_voltage, begin_samples, h, List.range_succ]

/-- Witness for C10 at a concrete configuration and reading stream. -/
theorem begin_min_one_sample_witness :
    begin_samples { defaultCfg with startup_voltage_samples := 0 } = 1 ∧
    1 ≤ begin_samples defaultCfg ∧
    begin_startup_voltage { defaultCfg with startup_voltage_samples := 0 }
      (fun _ => 12) = (fun _ : Nat => (12 : ℚ)) 0 := by
  obtain ⟨h1, h2, h3⟩ :=
    begin_min_one_sample { defaultCfg with startup_voltage_samples := 0 } (fun _ => 12) rfl
  exact ⟨h1, h2 defaultCfg, h3⟩

/-- C8: when the wrap-safe elapsed time is zero, the integration step leaves
the whole runtime state (remaining capacity and SOC included) unchanged,
while an update tick still refreshes the published sample's voltage, current
and power fields from the sensor; and the wrap-safe unsigned subtraction
recovers any elapsed duration below `2^32` across counter wraparound. -/
theorem update_zero_elapsed (cfg : Config) (st : MonitorState) (now_ms : Nat)
    (eff : ℚ) (cmd : Option Char) (sensor : SensorReading) (ok : Bool)
    (h : wsub now_ms st.last_time_ms = 0) :
    integrate_step cfg st now_ms eff = st ∧
    (update cfg st now_ms cmd sensor ok).sample.bus_voltage_v = sensor.bus_voltage_v ∧
    (update cfg st now_ms cmd sensor ok).sample.shunt_voltage_mv = sensor.shunt_voltage_mv ∧
    (update cfg st now_ms cmd sensor ok).sample.current_ma =
      (cfg.current_polarity : ℚ) * sensor.current_ma ∧
    (update cfg st now_ms cmd sensor ok).sample.power_mw = sensor.power_mw ∧
    (∀ d : Nat, d < 2 ^ 32 →
      wsub ((st.last_time_ms + d) % 2 ^ 32) (st.last_time_ms % 2 ^ 32) = d) := by
  refine ⟨?_, rfl, rfl, rfl, rfl, ?_⟩
  · simp [integrate_step, h]
  · intro d hd
    unfold wsub
    omega

/-- Witness for C8 at a concrete state and sensor reading. -/
theorem update_zero_elapsed_witness :
    integrate_step fcCfg lowState 0 5 = lowState ∧
    (update fcCfg lowState 0 none fcSensor true).sample.bus_voltage_v =
      fcSensor.bus_voltage_v ∧
    (update fcCfg lowState 0 none fcSensor true).sample.shunt_voltage_mv =
      fcSensor.shunt_voltage_mv ∧
    (update fcCfg lowState 0 none fcSensor true).sample.current_ma =
      (fcCfg.current_polarity : ℚ) * fcSensor.current_ma ∧
    (update fcCfg lowState 0 none fcSensor true).sample.power_mw = fcSensor.power_mw ∧
    wsub ((lowState.last_time_ms + 7) % 2 ^ 32) (lowState.last_time_ms % 2 ^ 32) = 7 := by
  obtain ⟨h1, h2, h3, h4, h5, h6⟩ :=
    update_zero_elapsed fcCfg lowState 0 5 none fcSensor true (by decide)
  exact ⟨h1, h2, h3, h4, h5, h6 7 (by decide)⟩

/-- C6 counterexample: persistence enabled, non-forced save, elapsed time
2000 ms which meets/exceeds the 1000 ms save interval, value delta 0 below
min_save_delta_mah — yet no storage write occurs, refuting "exceeding
either threshold causes a write". -/
theorem maybe_save_threshold_cex :
    is_nvs_enabled throttleCfg = true ∧
    throttleCfg.save_interval_ms ≤ wsub 2000 throttleState.last_nvs_save_ms ∧
    |throttleState.remaining_capacity_mah - 50| < throttleCfg.min_save_delta_mah ∧
    (maybe_save_to_nvs throttleCfg throttleState 2000 false true).2 = none := by
  refine ⟨by decide, by decide, by norm_num [throttleState, throttleCfg, defaultCfg], ?_⟩
  simp [maybe_save_to_nvs, is_nvs_enabled, throttleCfg, throttleState, defaultCfg, wsub,
    small_delta]

/-- C6 (amended): with persistence enabled, a non-forced save attempt within
save_interval_ms of the last save does nothing at all; a non-forced attempt
past the interval whose value delta is below min_save_delta_mah does not
write but advances last_nvs_save_ms to now; a write is attempted exactly
when the save is forced, or the interval has elapsed and the delta check
does not skip it; a forced save always attempts the write. -/
theorem maybe_save_throttle_spec (cfg : Config) (st : MonitorState) (now_ms : Nat)
    (force ok : Bool) (hnvs : is_nvs_enabled cfg = true) :
    (force = false → wsub now_ms st.last_nvs_save_ms < cfg.save_interval_ms →
      maybe_save_to_nvs cfg st now_ms force ok = (st, none)) ∧
    (force = false → cfg.save_interval_ms ≤ wsub now_ms st.last_nvs_save_ms →
      small_delta cfg st = true →
      maybe_save_to_nvs cfg st now_ms force ok =
        ({ st with last_nvs_save_ms := now_ms }, none)) ∧
    ((maybe_save_to_nvs cfg st now_ms force ok).2 ≠ none ↔
      force = true ∨ (cfg.save_interval_ms ≤ wsub now_ms st.last_nvs_save_ms ∧
        small_delta cfg st = false)) ∧
    (force = true → (maybe_save_to_nvs cfg st now_ms force ok).2 = some true) := by
  have h0 : ¬ is_nvs_enabled cfg = false := by simp [hnvs]
  unfold maybe_save_to_nvs
  rw [if_neg h0]
  refine ⟨?_, ?_, ?_, ?_⟩
  · intro hf hlt
    rw [if_pos (And.intro hf hlt)]
  · intro hf hge hsd
    rw [if_neg (fun hc => absurd hc.2 (not_lt.2 hge)), if_pos (And.intro hf hsd)]
  · by_cases hforce : force = true
    · subst hforce
      rw [if_neg (fun hc => by simp at hc), if_neg (fun hc => by simp at hc)]
      constructor
      · intro _
        exact Or.inl rfl
      · intro _
        split_ifs <;> simp
    · have hf : force = false := by
        cases force
        · rfl
        · exact absurd rfl hforce
      by_cases hlt : wsub now_ms st.last_nvs_save_ms < cfg.save_interval_ms
      · rw [if_pos (And.intro hf hlt)]
        constructor
        · intro h
          exact absurd rfl h
        · rintro (h | ⟨hge, _⟩)
          · exact absurd h hforce
          · exact absurd hlt (not_lt.2 hge)
      · by_cases hsd : small_delta cfg st = true
        · rw [if_neg (fun hc => hlt hc.2), if_pos (And.intro hf hsd)]
          constructor
          · intro h
            exact absurd rfl h
          · rintro (h | ⟨_, hsd2⟩)
            · exact absurd h hforce
            · rw [hsd] at hsd2
              exact absurd hsd2 (by simp)
        · rw [if_neg (fun hc => hlt hc.2), if_neg (fun hc => hsd hc.2)]
          constructor
          · intro _
            refine Or.inr ⟨not_lt.1 hlt, ?_⟩
            cases h : small_delta cfg st
            · rfl
            · exact absurd h hsd
          · intro _
            split_ifs <;> simp
  · intro hforce
    subst hforce
    rw [if_neg (fun hc => by simp at hc), if_neg (fun hc => by simp at hc)]
    split_ifs <;> rfl

/-- Witness for the amended C6 at a concrete configuration and state. -/
theorem maybe_save_throttle_spec_witness :
    (false = false → wsub 2000 throttleState.last_nvs_save_ms < throttleCfg.save_interval_ms →
      maybe_save_to_nvs throttleCfg throttleState 2000 false true = (throttleState, none)) ∧
    (false = false → throttleCfg.save_interval_ms ≤ wsub 2000 throttleState.last_nvs_save_ms →
      small_delta throttleCfg throttleState = true →
      maybe_save_to_nvs throttleCfg throttleState 2000 false true =
        ({ throttleState with last_nvs_save_ms := 2000 }, none)) ∧
    ((maybe_save_to_nvs throttleCfg throttleState 2000 false true).2 ≠ none ↔
      false = true ∨ (throttleCfg.save_interval_ms ≤ wsub 2000 throttleState.last_nvs_save_ms ∧
        small_delta throttleCfg throttleState = false)) ∧
    (false = true → (maybe_save_to_nvs throttleCfg throttleState 2000 false true).2 = some true) :=
  maybe_save_throttle_spec throttleCfg throttleState 2000 false true (by decide)

/-- C7: whenever the bus voltage strictly exceeds full_charge_voltage_v and
the absolute polarity-corrected current is below full_charge_current_ma
(and persistence is enabled), the update tick ends with remaining equal to
the configured capacity, SOC equal to 100, and a forced storage write
attempt among the tick's writes. -/
theorem update_full_charge (cfg : Config) (st : MonitorState) (now_ms : Nat)
    (cmd : Option Char) (sensor : SensorReading) (ok : Bool)
    (hv : cfg.full_charge_voltage_v < sensor.bus_voltage_v)
    (hi : |(cfg.current_polarity : ℚ) * sensor.current_ma| < cfg.full_charge_current_ma)
    (hnvs : is_nvs_enabled cfg = true) :
    (update cfg st now_ms cmd sensor ok).state.remaining_capacity_mah =
      cfg.battery_capacity_mah ∧
    (update cfg st now_ms cmd sensor ok).state.soc_percent = 100 ∧
    true ∈ (update cfg st now_ms cmd sensor ok).writes := by
  simp only [update, full_charge_step, if_pos (And.intro hv hi)]
  refine ⟨?_, ?_, ?_⟩
  · rw [maybe_save_remaining, maybe_save_remaining]
  · rw [maybe_save_soc, maybe_save_soc]
  · rw [maybe_save_forced _ _ _ _ hnvs]
    simp

/-- C2 counterexample: an update tick with positive elapsed time (1000 ms)
whose full-charge condition fires. The deadzone zeroes the 5 mA current, so
the claim's clamp formula yields the unchanged 50 mAh, but the tick ends
with remaining forced to the 1000 mAh capacity. -/
theorem update_integration_formula_cex :
    0 < wsub 1000 lowState.last_time_ms ∧
    (update fcCfg lowState 1000 none fcSensor true).state.remaining_capacity_mah ≠
      min fcCfg.battery_capacity_mah (max 0 (lowState.remaining_capacity_mah -
        (if |(fcCfg.current_polarity : ℚ) * fcSensor.current_ma| < fcCfg.current_deadzone_ma
          then 0 else (fcCfg.current_polarity : ℚ) * fcSensor.current_ma) *
          ((wsub 1000 lowState.last_time_ms : Nat) : ℚ) / 3600000)) := by
  constructor
  · decide
  · have hl : (update fcCfg lowState 1000 none fcSensor true).state.remaining_capacity_mah
        = 1000 := by
      simp [update, command_step, integrate_step, full_charge_step, maybe_save_to_nvs,
        small_delta, wsub, is_nvs_enabled, fcCfg, lowState, fcSensor, defaultCfg, clampCode]
      norm_num
    rw [hl]
    norm_num [fcCfg, lowState, fcSensor, defaultCfg, wsub]

/-- C2 (amended): for an update tick with positive elapsed time `T`, no
command byte consumed, and the full-charge condition not met, the effective
current is 0 when the absolute polarity-corrected current is inside the
deadzone and the polarity-corrected current otherwise; the tick's new
remaining capacity is `clamp(before - eff*T/3600000, 0, capacity)` and SOC
is recomputed as `remaining / capacity * 100`. -/
theorem update_integration_formula (cfg : Config) (st : MonitorState) (now_ms : Nat)
    (sensor : SensorReading) (ok : Bool) (T : Nat)
    (hcap : 0 ≤ cfg.battery_capacity_mah)
    (hT : wsub now_ms st.last_time_ms = T) (hTpos : 0 < T)
    (hnfc : ¬(cfg.full_charge_voltage_v < sensor.bus_voltage_v ∧
      |(cfg.current_polarity : ℚ) * sensor.current_ma| < cfg.full_charge_current_ma)) :
    (update cfg st now_ms none sensor ok).state.remaining_capacity_mah =
      min cfg.battery_capacity_mah (max 0 (st.remaining_capacity_mah -
        (if |(cfg.current_polarity : ℚ) * sensor.current_ma| < cfg.current_deadzone_ma
          then 0 else (cfg.current_polarity : ℚ) * sensor.current_ma) * (T : ℚ) / 3600000)) ∧
    (update cfg st now_ms none sensor ok).state.soc_percent =
      (update cfg st now_ms none sensor ok).state.remaining_capacity_mah /
        cfg.battery_capacity_mah * 100 := by
  have hu : (update cfg st now_ms none sensor ok).state =
      (maybe_save_to_nvs cfg
        (integrate_step cfg st now_ms
          (if |(cfg.current_polarity : ℚ) * sensor.current_ma| < cfg.current_deadzone_ma
            then 0 else (cfg.current_polarity : ℚ) * sensor.current_ma))
        now_ms false ok).1 := by
    simp [update, command_step, full_charge_step, hnfc]
  rw [hu, maybe_save_remaining, maybe_save_soc,
    integrate_step_pos cfg st now_ms _ T hT hTpos]
  constructor
  · rw [clampCode_eq_min_max _ _ hcap, mul_div_assoc]
  · rfl

/-- Witness for the amended C2: one hour at a constant 500 mA discharge
drains 500 mAh from a 3000 mAh battery. -/
theorem update_integration_formula_witness :
    (update defaultCfg ⟨3000, 100, 0, 0, some 3000⟩ 3600000 none ⟨12, 1, 500, 6000⟩
        true).state.remaining_capacity_mah =
      min defaultCfg.battery_capacity_mah (max 0 ((3000 : ℚ) -
        (if |(defaultCfg.current_polarity : ℚ) * 500| < defaultCfg.current_deadzone_ma
          then 0 else (defaultCfg.current_polarity : ℚ) * 500) *
          ((3600000 : Nat) : ℚ) / 3600000)) ∧
    (update defaultCfg ⟨3000, 100, 0, 0, some 3000⟩ 3600000 none ⟨12, 1, 500, 6000⟩
        true).state.soc_percent =
      (update defaultCfg ⟨3000, 100, 0, 0, some 3000⟩ 3600000 none ⟨12, 1, 500, 6000⟩
        true).state.remaining_capacity_mah / defaultCfg.battery_capacity_mah * 100 :=
  update_integration_formula defaultCfg ⟨3000, 100, 0, 0, some 3000⟩ 3600000
    ⟨12, 1, 500, 6000⟩ true 3600000 (by norm_num [defaultCfg]) (by decide) (by decide)
    (by norm_num [defaultCfg])

/-- Witness for C7 at a concrete state and reading. -/
theorem update_full_charge_witness :
    (update fcCfg lowState 1000 none fcSensor true).state.remaining_capacity_mah =
      fcCfg.battery_capacity_mah ∧
    (update fcCfg lowState 1000 none fcSensor true).state.soc_percent = 100 ∧
    true ∈ (update fcCfg lowState 1000 none fcSensor true).writes :=
  update_full_charge fcCfg lowState 1000 none fcSensor true
    (by norm_num [fcCfg, fcSensor, defaultCfg])
    (by norm_num [fcCfg, fcSensor, defaultCfg])
    (by decide)

end Ina226
